import Mathlib

/-!
Verification of the Sudoku constraint-propagation solver and generator
(`src/sudoku.rs`).  The Rust code is shallowly embedded: the mutable
`HashMap<SquareId, HashSet<u32>>` grid state becomes a function from square
identifiers to duplicate-free lists of digits, and the mutually recursive
`assign`/`eliminate`/`search` procedures become fuel-indexed functions
returning `Option (Bool × GState)`, where `none` models fuel exhaustion and
`some (b, st)` models the Rust function returning the boolean `b` with the
(possibly mutated) state `st`.  Iteration orders that Rust leaves to hash
iteration are fixed to deterministic list orders.
-/

namespace Sudoku

/-- Cell identifier, `pub type SquareId = (char, char)` in the source. -/
abbrev SquareId := Char × Char

/-- Candidate set of a cell, modelling `HashSet<u32>` as a duplicate-free
list of digits. -/
abbrev SquareVals := List Nat

/-- Start state: list of (square, digit) clue pairs, digit 0 meaning blank. -/
abbrev StartState := List (SquareId × Nat)

/-- Grid state: total map from square identifiers to candidate sets,
modelling the `values : HashMap<SquareId, SquareValues>` field. -/
abbrev GState := SquareId → SquareVals

/-- The 81 squares, row-major `A1..I9`, as in `Config::new`. -/
def squares : List SquareId :=
  [('A', '1'), ('A', '2'), ('A', '3'), ('A', '4'), ('A', '5'), ('A', '6'), ('A', '7'), ('A', '8'), ('A', '9'),
   ('B', '1'), ('B', '2'), ('B', '3'), ('B', '4'), ('B', '5'), ('B', '6'), ('B', '7'), ('B', '8'), ('B', '9'),
   ('C', '1'), ('C', '2'), ('C', '3'), ('C', '4'), ('C', '5'), ('C', '6'), ('C', '7'), ('C', '8'), ('C', '9'),
   ('D', '1'), ('D', '2'), ('D', '3'), ('D', '4'), ('D', '5'), ('D', '6'), ('D', '7'), ('D', '8'), ('D', '9'),
   ('E', '1'), ('E', '2'), ('E', '3'), ('E', '4'), ('E', '5'), ('E', '6'), ('E', '7'), ('E', '8'), ('E', '9'),
   ('F', '1'), ('F', '2'), ('F', '3'), ('F', '4'), ('F', '5'), ('F', '6'), ('F', '7'), ('F', '8'), ('F', '9'),
   ('G', '1'), ('G', '2'), ('G', '3'), ('G', '4'), ('G', '5'), ('G', '6'), ('G', '7'), ('G', '8'), ('G', '9'),
   ('H', '1'), ('H', '2'), ('H', '3'), ('H', '4'), ('H', '5'), ('H', '6'), ('H', '7'), ('H', '8'), ('H', '9'),
   ('I', '1'), ('I', '2'), ('I', '3'), ('I', '4'), ('I', '5'), ('I', '6'), ('I', '7'), ('I', '8'), ('I', '9')]

/-- The 27 units (9 rows, 9 columns, 9 boxes), as in `Config::new`. -/
def unitlist : List (List SquareId) :=
  [[('A', '1'), ('A', '2'), ('A', '3'), ('A', '4'), ('A', '5'), ('A', '6'), ('A', '7'), ('A', '8'), ('A', '9')],
   [('B', '1'), ('B', '2'), ('B', '3'), ('B', '4'), ('B', '5'), ('B', '6'), ('B', '7'), ('B', '8'), ('B', '9')],
   [('C', '1'), ('C', '2'), ('C', '3'), ('C', '4'), ('C', '5'), ('C', '6'), ('C', '7'), ('C', '8'), ('C', '9')],
   [('D', '1'), ('D', '2'), ('D', '3'), ('D', '4'), ('D', '5'), ('D', '6'), ('D', '7'), ('D', '8'), ('D', '9')],
   [('E', '1'), ('E', '2'), ('E', '3'), ('E', '4'), ('E', '5'), ('E', '6'), ('E', '7'), ('E', '8'), ('E', '9')],
   [('F', '1'), ('F', '2'), ('F', '3'), ('F', '4'), ('F', '5'), ('F', '6'), ('F', '7'), ('F', '8'), ('F', '9')],
   [('G', '1'), ('G', '2'), ('G', '3'), ('G', '4'), ('G', '5'), ('G', '6'), ('G', '7'), ('G', '8'), ('G', '9')],
   [('H', '1'), ('H', '2'), ('H', '3'), ('H', '4'), ('H', '5'), ('H', '6'), ('H', '7'), ('H', '8'), ('H', '9')],
   [('I', '1'), ('I', '2'), ('I', '3'), ('I', '4'), ('I', '5'), ('I', '6'), ('I', '7'), ('I', '8'), ('I', '9')],
   [('A', '1'), ('B', '1'), ('C', '1'), ('D', '1'), ('E', '1'), ('F', '1'), ('G', '1'), ('H', '1'), ('I', '1')],
   [('A', '2'), ('B', '2'), ('C', '2'), ('D', '2'), ('E', '2'), ('F', '2'), ('G', '2'), ('H', '2'), ('I', '2')],
   [('A', '3'), ('B', '3'), ('C', '3'), ('D', '3'), ('E', '3'), ('F', '3'), ('G', '3'), ('H', '3'), ('I', '3')],
   [('A', '4'), ('B', '4'), ('C', '4'), ('D', '4'), ('E', '4'), ('F', '4'), ('G', '4'), ('H', '4'), ('I', '4')],
   [('A', '5'), ('B', '5'), ('C', '5'), ('D', '5'), ('E', '5'), ('F', '5'), ('G', '5'), ('H', '5'), ('I', '5')],
   [('A', '6'), ('B', '6'), ('C', '6'), ('D', '6'), ('E', '6'), ('F', '6'), ('G', '6'), ('H', '6'), ('I', '6')],
   [('A', '7'), ('B', '7'), ('C', '7'), ('D', '7'), ('E', '7'), ('F', '7'), ('G', '7'), ('H', '7'), ('I', '7')],
   [('A', '8'), ('B', '8'), ('C', '8'), ('D', '8'), ('E', '8'), ('F', '8'), ('G', '8'), ('H', '8'), ('I', '8')],
   [('A', '9'), ('B', '9'), ('C', '9'), ('D', '9'), ('E', '9'), ('F', '9'), ('G', '9'), ('H', '9'), ('I', '9')],
   [('A', '1'), ('A', '2'), ('A', '3'), ('B', '1'), ('B', '2'), ('B', '3'), ('C', '1'), ('C', '2'), ('C', '3')],
   [('A', '4'), ('A', '5'), ('A', '6'), ('B', '4'), ('B', '5'), ('B', '6'), ('C', '4'), ('C', '5'), ('C', '6')],
   [('A', '7'), ('A', '8'), ('A', '9'), ('B', '7'), ('B', '8'), ('B', '9'), ('C', '7'), ('C', '8'), ('C', '9')],
   [('D', '1'), ('D', '2'), ('D', '3'), ('E', '1'), ('E', '2'), ('E', '3'), ('F', '1'), ('F', '2'), ('F', '3')],
   [('D', '4'), ('D', '5'), ('D', '6'), ('E', '4'), ('E', '5'), ('E', '6'), ('F', '4'), ('F', '5'), ('F', '6')],
   [('D', '7'), ('D', '8'), ('D', '9'), ('E', '7'), ('E', '8'), ('E', '9'), ('F', '7'), ('F', '8'), ('F', '9')],
   [('G', '1'), ('G', '2'), ('G', '3'), ('H', '1'), ('H', '2'), ('H', '3'), ('I', '1'), ('I', '2'), ('I', '3')],
   [('G', '4'), ('G', '5'), ('G', '6'), ('H', '4'), ('H', '5'), ('H', '6'), ('I', '4'), ('I', '5'), ('I', '6')],
   [('G', '7'), ('G', '8'), ('G', '9'), ('H', '7'), ('H', '8'), ('H', '9'), ('I', '7'), ('I', '8'), ('I', '9')]]

/-- The units containing a square: `unitlist.iter().filter(|u| u.contains(s))`. -/
def units (s : SquareId) : List (List SquareId) :=
  unitlist.filter (fun u => decide (s ∈ u))

/-- The peers of a square: the union of its units minus itself.  The source
stores this as a `HashSet`; we fix a deterministic duplicate-free list. -/
def peers (s : SquareId) : List SquareId :=
  (((units s).flatten).filter (fun c => decide (c ≠ s))).dedup

/-- The digit set `{1..9}` (`Config::digits`), as a duplicate-free list. -/
def digits : List Nat := [1, 2, 3, 4, 5, 6, 7, 8, 9]

/-- The initial grid state: every square maps to the full digit set
(`Config::values`, copied into a fresh `State` by `State::new`). -/
def initial : GState := fun _ => digits

/-- Point update of a grid state (`HashMap` insertion at an existing key). -/
def updateSt (st : GState) (s : SquareId) (vs : SquareVals) : GState :=
  fun c => if c = s then vs else st c

/-- One step of `State::assign`'s elimination loop: eliminate each value of
`ds` from square `s` in turn, short-circuiting on failure, with `elim`
standing for the recursive `State::eliminate` call. -/
def loopVals (elim : GState → SquareId → Nat → Option (Bool × GState))
    (s : SquareId) : GState → List Nat → Option (Bool × GState)
  | st, [] => some (true, st)
  | st, d :: ds =>
    match elim st s d with
    | none => none
    | some (false, st') => some (false, st')
    | some (true, st') => loopVals elim s st' ds

/-- `State::assign` with `elim` standing for the recursive
`State::eliminate` call: remove every other candidate of the square. -/
def assignW (elim : GState → SquareId → Nat → Option (Bool × GState))
    (st : GState) (s : SquareId) (v : Nat) : Option (Bool × GState) :=
  loopVals elim s st ((st s).erase v)

/-- The peer-propagation loop of `State::eliminate`: eliminate the digit
`d2` from every peer, short-circuiting on failure. -/
def loopPeers (elim : GState → SquareId → Nat → Option (Bool × GState))
    (d2 : Nat) : GState → List SquareId → Option (Bool × GState)
  | st, [] => some (true, st)
  | st, p :: ps =>
    match elim st p d2 with
    | none => none
    | some (false, st') => some (false, st')
    | some (true, st') => loopPeers elim d2 st' ps

/-- The unit loop of `State::eliminate`: for each unit, the cells that can
still hold `v`; fail on zero places, assign on a unique place. -/
def loopUnits (asg : GState → SquareId → Nat → Option (Bool × GState))
    (v : Nat) : GState → List (List SquareId) → Option (Bool × GState)
  | st, [] => some (true, st)
  | st, u :: us =>
    match u.filter (fun c => decide (v ∈ st c)) with
    | [] => some (false, st)
    | [p] =>
      match asg st p v with
      | none => none
      | some (false, st') => some (false, st')
      | some (true, st') => loopUnits asg v st' us
    | _ :: _ :: _ => loopUnits asg v st us

/-- The body of `State::eliminate` after the membership test has succeeded,
branching on the candidate set left after removing `v`; `elim` stands for
the recursive `State::eliminate` call. -/
def elimStep (elim : GState → SquareId → Nat → Option (Bool × GState))
    (st : GState) (s : SquareId) (v : Nat) : Option (Bool × GState) :=
  match (st s).erase v with
  | [] => some (false, updateSt st s [])
  | [d2] =>
    match loopPeers elim d2 (updateSt st s [d2]) (peers s) with
    | none => none
    | some (false, st2) => some (false, st2)
    | some (true, st2) => loopUnits (assignW elim) v st2 (units s)
  | d1 :: d2 :: rest => loopUnits (assignW elim) v (updateSt st s (d1 :: d2 :: rest)) (units s)

/-- `State::eliminate`, fuel-indexed.  If `v` is not a candidate of `s` the
call is an immediate no-op success; otherwise `v` is removed and the two
propagation rules run on the updated state. -/
def eliminate : Nat → GState → SquareId → Nat → Option (Bool × GState)
  | 0, _, _, _ => none
  | f + 1, st, s, v =>
    if v ∈ st s then elimStep (eliminate f) st s v
    else some (true, st)

/-- `State::assign`, fuel-indexed. -/
def assign (f : Nat) : GState → SquareId → Nat → Option (Bool × GState) :=
  assignW (eliminate f)

/-- Number of cells of the whole state whose candidate set contains `v`
(the popularity count computed by `State::sort_values`). -/
def popCount (st : GState) (v : Nat) : Nat :=
  (squares.filter (fun c => decide (v ∈ st c))).length

/-- `State::sort_values`: the candidates of a square ordered by ascending
global popularity (stable sort on the popularity counts). -/
def sort_values (st : GState) (s : SquareId) : List Nat :=
  (((st s).map (fun v => (v, popCount st v))).insertionSort
    (fun a b => a.2 ≤ b.2)).map Prod.fst

/-- `State::is_solved`: every square's candidate set is a singleton. -/
def is_solved (st : GState) : Bool :=
  squares.all (fun s => decide ((st s).length = 1))

/-- First minimal element of a list of squares under candidate-set size,
modelling `Iterator::min_by_key` (which returns the first minimum). -/
def pickMin (st : GState) : List SquareId → Option SquareId
  | [] => none
  | s :: ss =>
    match pickMin st ss with
    | none => some s
    | some b => if (st s).length ≤ (st b).length then some s else some b

/-- The branching cell of `State::search`: the first unsolved cell of
minimal candidate-set size in the fixed `squares` order. -/
def choose_square (st : GState) : Option SquareId :=
  pickMin st (squares.filter (fun s => decide (1 < (st s).length)))

/-- The candidate-value loop of `State::search`: try each digit on a clone
of the state (`asg` then `srch`); adopt the first successful child state,
keep the original state if all digits fail. -/
def loopTry (asg : GState → SquareId → Nat → Option (Bool × GState))
    (srch : GState → Option (Bool × GState))
    (st : GState) (s : SquareId) : List Nat → Option (Bool × GState)
  | [] => some (false, st)
  | d :: ds =>
    match asg st s d with
    | none => none
    | some (false, _) => loopTry asg srch st s ds
    | some (true, st1) =>
      match srch st1 with
      | none => none
      | some (true, st2) => some (true, st2)
      | some (false, _) => loopTry asg srch st s ds

/-- `State::search`, fuel-indexed.  The `choose_square st = none` case
models the unreachable `unwrap` panic as `none`. -/
def search : Nat → GState → Option (Bool × GState)
  | 0, _ => none
  | f + 1, st =>
    if is_solved st then some (true, st)
    else
      match choose_square st with
      | none => none
      | some s => loopTry (assign f) (search f) st s (sort_values st s)

/-- `State::apply_start_state`: assign every non-zero clue in order. -/
def apply_start_state (f : Nat) : GState → StartState → Option (Bool × GState)
  | st, [] => some (true, st)
  | st, (s, v) :: rest =>
    if v ≠ 0 then
      match assign f st s v with
      | none => none
      | some (false, st') => some (false, st')
      | some (true, st') => apply_start_state f st' rest
    else apply_start_state f st rest

/-- `State::solve`: apply the start state to a fresh grid, then search. -/
def solve (f : Nat) (ss : StartState) : Option (Bool × GState) :=
  match apply_start_state f initial ss with
  | none => none
  | some (false, st) => some (false, st)
  | some (true, st) => search f st

def errLen : String := "Incorrect length"

def errSolve : String := "Failed solving puzzle"

/-- The clue value denoted by one input character in
`StringStartStateHandler::parse`: a digit character in `1..9` gives that
digit, anything else gives 0 (no clue). -/
def charClue (c : Char) : Nat :=
  match (if c.isDigit then some (c.toNat - 48) else none) with
  | some d => if d ∈ digits then d else 0
  | none => 0

/-- `StringStartStateHandler::parse`: fail unless the input has exactly 81
characters, otherwise pair the squares in row-major order with the parsed
clue values. -/
def parse (grid : List Char) : Except String StartState :=
  if grid.length ≠ 81 then Except.error errLen
  else Except.ok (squares.zip (grid.map charClue))

/-- `Solver::solve`: wrap `State::solve`'s boolean into a `Result`. -/
def solver_solve (f : Nat) (ss : StartState) : Option (Except String GState) :=
  match solve f ss with
  | none => none
  | some (false, _) => some (Except.error errSolve)
  | some (true, st) => some (Except.ok st)

/-- `Solver::solve_str`: parse, propagating the parse error, then solve. -/
def solve_str (f : Nat) (grid : List Char) : Option (Except String GState) :=
  match parse grid with
  | Except.error e => some (Except.error e)
  | Except.ok ss => solver_solve f ss

/-- `State::encode`: the (square, digit) pairs of the singleton cells. -/
def encode (st : GState) : StartState :=
  (squares.filter (fun c => decide ((st c).length = 1))).map
    (fun c => (c, (st c).headD 0))

/-- `State::randomize`, with the random square order and the random value
choices made explicit parameters: assign a value to each square of `order`
in turn, succeeding as soon as the singleton cells hold at least `n` digits
of which at least 8 are distinct, failing (`none`) on contradiction or on
exhausting the order.  Fuel exhaustion is also `none`. -/
def randomize (f : Nat) : GState → List SquareId → List Nat → Nat → Option GState
  | _, [], _, _ => none
  | st, s :: rest, picks, n =>
    match assign f st s ((st s).getD (picks.headD 0 % (st s).length) 0) with
    | none => none
    | some (false, _) => none
    | some (true, st') =>
      if n ≤ ((encode st').map Prod.snd).length ∧
          8 ≤ ((encode st').map Prod.snd).dedup.length then some st'
      else randomize f st' rest picks.tail n

/-- The final internal grid state of a `State::randomize` run (junk value
`initial` when the run fails). -/
def rand_state (f : Nat) (order : List SquareId) (picks : List Nat) (n : Nat) : GState :=
  (randomize f initial order picks n).getD initial

/-- `State::generate`: run `randomize` on a fresh state and encode the
resulting singleton cells as a start state. -/
def state_generate (f : Nat) (n : Nat) (order : List SquareId) (picks : List Nat) :
    Option StartState :=
  (randomize f initial order picks n).map encode

/-- The final grid state of a successful run (junk value on failure),
used to phrase postconditions of `solve`. -/
def result_state (r : Option (Bool × GState)) : GState :=
  (r.getD (true, initial)).2

/-- A fully solved and Sudoku-valid grid state: every cell is a singleton
and the nine singleton digits of every unit are exactly `{1..9}`. -/
def solved_and_valid (st : GState) : Prop :=
  is_solved st = true ∧ (∀ c ∈ squares, (st c).length = 1) ∧
    ∀ u ∈ unitlist, (u.map (fun c => (st c).headD 0)).Perm digits

def exGridStr : String :=
  "123456789456789123789123456231564897564897231897231564312645978645978312978312645"

/-- A complete valid solution grid, as parsed clues (concrete test input). -/
def exClues : StartState := squares.zip (exGridStr.toList.map charClue)

/-- An 80-character input (one short), concrete test input. -/
def grid80 : List Char := List.replicate 80 '.'

/-- A state with one solved cell (concrete test input). -/
def solvedCellSt : GState := updateSt initial ('A', '1') [5]

/-- A concrete randomization order: eight mutually non-peer squares. -/
def worder : List SquareId :=
  [('A', '1'), ('B', '4'), ('C', '7'), ('D', '2'), ('E', '5'), ('F', '8'), ('G', '3'), ('H', '6')]

/-- Concrete random value choices. -/
def wpicks : List Nat := [0, 1, 2, 3, 4, 5, 6, 7]

/-- `st'` refines `st`: every candidate set has shrunk (as a sublist). -/
def SubInv (st st' : GState) : Prop := ∀ c, (st' c).Sublist (st c)

/-- A step function only ever shrinks candidate sets, on success or
failure. -/
def StepSub (g : GState → SquareId → Nat → Option (Bool × GState)) : Prop :=
  ∀ st s v b st', g st s v = some (b, st') → SubInv st st'
/-- A step function keeps nonempty candidate sets nonempty on success. -/
def StepNE (g : GState → SquareId → Nat → Option (Bool × GState)) : Prop :=
  ∀ st s v st', g st s v = some (true, st') → ∀ c, st c ≠ [] → st' c ≠ []
/-- All candidate sets of a state are duplicate-free (true of every state
reachable from `initial`, mirroring the `HashSet` representation). -/
def WF (st : GState) : Prop := ∀ c, (st c).Nodup
/-- Any cell that became a singleton between `st` and `st'` has its digit
absent from all of its peers in `st'`. -/
def NC (st st' : GState) : Prop :=
  ∀ c, (st c).length ≠ 1 → (st' c).length = 1 →
    ∀ d ∈ st' c, ∀ p ∈ peers c, d ∉ st' p
/-- Successful propagation both shrinks the state and keeps every newly
created singleton clean with respect to its peers. -/
def Prog (st st' : GState) : Prop := SubInv st st' ∧ NC st st'
/-- A step function satisfying the success postcondition `Prog` on
well-formed states. -/
def ElimProg (g : GState → SquareId → Nat → Option (Bool × GState)) : Prop :=
  ∀ st s v st', WF st → g st s v = some (true, st') → Prog st st'
/-- A clean state: the digit of every solved (singleton) cell is absent
from all of that cell's peers. -/
def Clean (st : GState) : Prop :=
  ∀ c d, st c = [d] → ∀ p ∈ peers c, d ∉ st p

theorem subInv_refl (st : GState) : SubInv st st := fun _ => List.Sublist.refl _

theorem subInv_trans {st st' st'' : GState} (h1 : SubInv st st') (h2 : SubInv st' st'') :
    SubInv st st'' := fun c => (h2 c).trans (h1 c)

theorem updateSt_self (st : GState) (s : SquareId) (vs : SquareVals) :
    updateSt st s vs s = vs := if_pos rfl

theorem updateSt_ne (st : GState) (s : SquareId) (vs : SquareVals) {c : SquareId}
    (h : c ≠ s) : updateSt st s vs c = st c := if_neg h

theorem updateSt_subInv {st : GState} {s : SquareId} {vs : SquareVals}
    (h : vs.Sublist (st s)) : SubInv st (updateSt st s vs) := by
  intro c
  unfold updateSt
  by_cases hc : c = s
  · subst hc; simpa using h
  · simp [hc]

theorem loopVals_sub {elim} (hE : StepSub elim) (s : SquareId) :
    ∀ (ds : List Nat) (st : GState) (b : Bool) (st' : GState),
      loopVals elim s st ds = some (b, st') → SubInv st st' := by
  intro ds
  induction ds with
  | nil =>
    intro st b st' h
    rw [loopVals] at h
    cases h
    exact subInv_refl _
  | cons d ds ih =>
    intro st b st' h
    rw [loopVals] at h
    split at h
    · cases h
    · rename_i st1 hd
      cases h
      exact hE st s d false _ hd
    · rename_i st1 hd
      exact subInv_trans (hE st s d true st1 hd) (ih st1 b st' h)

theorem assignW_sub {elim} (hE : StepSub elim) : StepSub (assignW elim) :=
  fun st s v b st' h => loopVals_sub hE s ((st s).erase v) st b st' h

theorem loopPeers_sub {elim} (hE : StepSub elim) (d2 : Nat) :
    ∀ (ps : List SquareId) (st : GState) (b : Bool) (st' : GState),
      loopPeers elim d2 st ps = some (b, st') → SubInv st st' := by
  intro ps
  induction ps with
  | nil =>
    intro st b st' h
    rw [loopPeers] at h
    cases h
    exact subInv_refl _
  | cons p ps ih =>
    intro st b st' h
    rw [loopPeers] at h
    split at h
    · cases h
    · rename_i st1 hd
      cases h
      exact hE st p d2 false _ hd
    · rename_i st1 hd
      exact subInv_trans (hE st p d2 true st1 hd) (ih st1 b st' h)

theorem loopUnits_sub {asg} (hA : StepSub asg) (v : Nat) :
    ∀ (us : List (List SquareId)) (st : GState) (b : Bool) (st' : GState),
      loopUnits asg v st us = some (b, st') → SubInv st st' := by
  intro us
  induction us with
  | nil =>
    intro st b st' h
    rw [loopUnits] at h
    cases h
    exact subInv_refl _
  | cons u us ih =>
    intro st b st' h
    rw [loopUnits] at h
    split at h
    · cases h; exact subInv_refl _
    · rename_i p hfilter
      split at h
      · cases h
      · rename_i st1 hasg
        cases h
        exact hA st p v false _ hasg
      · rename_i st1 hasg
        exact subInv_trans (hA st p v true st1 hasg) (ih st1 b st' h)
    · exact ih st b st' h

theorem elimStep_sub {elim} (hE : StepSub elim) (st : GState) (s : SquareId) (v : Nat)
    (b : Bool) (st' : GState) (h : elimStep elim st s v = some (b, st')) : SubInv st st' := by
  rw [elimStep] at h
  split at h
  · rename_i hl
    cases h
    exact updateSt_subInv (hl ▸ List.erase_sublist v (st s))
  · rename_i d2 hl
    have hsub1 : SubInv st (updateSt st s [d2]) :=
      updateSt_subInv (hl ▸ List.erase_sublist v (st s))
    split at h
    · cases h
    · rename_i st2 hp
      cases h
      exact subInv_trans hsub1 (loopPeers_sub hE d2 (peers s) _ false _ hp)
    · rename_i st2 hp
      exact subInv_trans hsub1
        (subInv_trans (loopPeers_sub hE d2 (peers s) _ true st2 hp)
          (loopUnits_sub (assignW_sub hE) v (units s) st2 b st' h))
  · rename_i d1 d2 rest hl
    have hsub1 : SubInv st (updateSt st s (d1 :: d2 :: rest)) :=
      updateSt_subInv (hl ▸ List.erase_sublist v (st s))
    exact subInv_trans hsub1 (loopUnits_sub (assignW_sub hE) v (units s) _ b st' h)

theorem eliminate_sub : ∀ f, StepSub (eliminate f) := by
  intro f
  induction f with
  | zero => intro st s v b st' h; cases h
  | succ f ih =>
    intro st s v b st' h
    rw [eliminate] at h
    by_cases hv : v ∈ st s
    · rw [if_pos hv] at h
      exact elimStep_sub ih st s v b st' h
    · rw [if_neg hv] at h
      cases h
      exact subInv_refl _

theorem assign_sub (f : Nat) : StepSub (assign f) :=
  assignW_sub (eliminate_sub f)

theorem loopVals_ne {elim} (hE : StepNE elim) (s : SquareId) :
    ∀ (ds : List Nat) (st : GState) (st' : GState),
      loopVals elim s st ds = some (true, st') → ∀ c, st c ≠ [] → st' c ≠ [] := by
  intro ds
  induction ds with
  | nil =>
    intro st st' h
    rw [loopVals] at h
    cases h
    exact fun _ hc => hc
  | cons d ds ih =>
    intro st st' h
    rw [loopVals] at h
    split at h
    · cases h
    · cases h
    · rename_i st1 hd
      exact fun c hc => ih st1 st' h c (hE st s d st1 hd c hc)

theorem assignW_ne {elim} (hE : StepNE elim) : StepNE (assignW elim) :=
  fun st s v st' h => loopVals_ne hE s ((st s).erase v) st st' h

theorem loopPeers_ne {elim} (hE : StepNE elim) (d2 : Nat) :
    ∀ (ps : List SquareId) (st : GState) (st' : GState),
      loopPeers elim d2 st ps = some (true, st') → ∀ c, st c ≠ [] → st' c ≠ [] := by
  intro ps
  induction ps with
  | nil =>
    intro st st' h
    rw [loopPeers] at h
    cases h
    exact fun _ hc => hc
  | cons p ps ih =>
    intro st st' h
    rw [loopPeers] at h
    split at h
    · cases h
    · cases h
    · rename_i st1 hd
      exact fun c hc => ih st1 st' h c (hE st p d2 st1 hd c hc)

theorem loopUnits_ne {asg} (hA : StepNE asg) (v : Nat) :
    ∀ (us : List (List SquareId)) (st : GState) (st' : GState),
      loopUnits asg v st us = some (true, st') → ∀ c, st c ≠ [] → st' c ≠ [] := by
  intro us
  induction us with
  | nil =>
    intro st st' h
    rw [loopUnits] at h
    cases h
    exact fun _ hc => hc
  | cons u us ih =>
    intro st st' h
    rw [loopUnits] at h
    split at h
    · cases h
    · rename_i p hfilter
      split at h
      · cases h
      · cases h
      · rename_i st1 hasg
        exact fun c hc => ih st1 st' h c (hA st p v st1 hasg c hc)
    · exact ih st st' h

theorem elimStep_ne {elim} (hE : StepNE elim) (st : GState) (s : SquareId) (v : Nat)
    (st' : GState) (h : elimStep elim st s v = some (true, st')) :
    ∀ c, st c ≠ [] → st' c ≠ [] := by
  have hupd : ∀ (vs : SquareVals), vs ≠ [] → ∀ c, st c ≠ [] → updateSt st s vs c ≠ [] := by
    intro vs hvs c hc
    unfold updateSt
    by_cases hcs : c = s
    · simpa [hcs] using hvs
    · simpa [hcs] using hc
  rw [elimStep] at h
  split at h
  · cases h
  · rename_i d2 hl
    split at h
    · cases h
    · cases h
    · rename_i st2 hp
      intro c hc
      exact loopUnits_ne (assignW_ne hE) v (units s) st2 st' h c
        (loopPeers_ne hE d2 (peers s) _ st2 hp c (hupd [d2] (by simp) c hc))
  · rename_i d1 d2 rest hl
    intro c hc
    exact loopUnits_ne (assignW_ne hE) v (units s) _ st' h c
      (hupd (d1 :: d2 :: rest) (by simp) c hc)

theorem eliminate_ne : ∀ f, StepNE (eliminate f) := by
  intro f
  induction f with
  | zero => intro st s v st' h; cases h
  | succ f ih =>
    intro st s v st' h
    rw [eliminate] at h
    by_cases hv : v ∈ st s
    · rw [if_pos hv] at h
      exact elimStep_ne ih st s v st' h
    · rw [if_neg hv] at h
      cases h
      exact fun _ hc => hc

theorem assign_ne (f : Nat) : StepNE (assign f) :=
  assignW_ne (eliminate_ne f)

/-- A successful or failed `eliminate` leaves `v` out of the candidate set
of its square (for duplicate-free candidate sets). -/
theorem eliminate_rem (f : Nat) (st : GState) (s : SquareId) (v : Nat)
    (hnd : (st s).Nodup) (b : Bool) (st' : GState)
    (h : eliminate f st s v = some (b, st')) : v ∉ st' s := by
  cases f with
  | zero => cases h
  | succ f =>
    rw [eliminate] at h
    by_cases hv : v ∈ st s
    · rw [if_pos hv] at h
      have hvnotin : v ∉ (st s).erase v := by
        intro hmem
        exact absurd (((List.Nodup.mem_erase_iff hnd).mp hmem).1 rfl) (fun hh => hh)
      rw [elimStep] at h
      split at h
      · rename_i hl
        cases h
        simp [updateSt_self]
      · rename_i d2 hl
        have hd2 : v ∉ [d2] := hl ▸ hvnotin
        have hs1 : updateSt st s [d2] s = [d2] := updateSt_self st s [d2]
        split at h
        · cases h
        · rename_i st2 hp
          cases h
          intro hmem
          exact hd2 (hs1 ▸ (loopPeers_sub (eliminate_sub f) d2 (peers s) _ false _ hp s).subset hmem)
        · rename_i st2 hp
          intro hmem
          have h2 : v ∈ st2 s :=
            (loopUnits_sub (assignW_sub (eliminate_sub f)) v (units s) st2 _ st' h s).subset hmem
          exact hd2 (hs1 ▸ (loopPeers_sub (eliminate_sub f) d2 (peers s) _ true st2 hp s).subset h2)
      · rename_i d1 d2 rest hl
        have hrest : v ∉ (d1 :: d2 :: rest) := hl ▸ hvnotin
        have hs1 : updateSt st s (d1 :: d2 :: rest) s = d1 :: d2 :: rest := updateSt_self st s _
        intro hmem
        exact hrest (hs1 ▸
          (loopUnits_sub (assignW_sub (eliminate_sub f)) v (units s) _ _ st' h s).subset hmem)
    · rw [if_neg hv] at h
      cases h
      exact hv

/-- After a successful peer loop, the propagated digit is out of every peer
in the list. -/
theorem loopPeers_rem (f : Nat) (d2 : Nat) :
    ∀ (ps : List SquareId) (st : GState) (st' : GState),
      (∀ c, (st c).Nodup) →
      loopPeers (eliminate f) d2 st ps = some (true, st') → ∀ p ∈ ps, d2 ∉ st' p := by
  intro ps
  induction ps with
  | nil => intro st st' _ h p hp; cases hp
  | cons q ps ih =>
    intro st st' hnd h p hp
    rw [loopPeers] at h
    split at h
    · cases h
    · cases h
    · rename_i st1 hd
      have hsub1 : SubInv st st1 := eliminate_sub f st q d2 true st1 hd
      have hnd1 : ∀ c, (st1 c).Nodup := fun c => (hnd c).sublist (hsub1 c)
      rcases List.mem_cons.mp hp with rfl | hp
      · have hrem : d2 ∉ st1 p := eliminate_rem f st p d2 (hnd p) true st1 hd
        intro hmem
        exact hrem ((loopPeers_sub (eliminate_sub f) d2 ps st1 true st' h p).subset hmem)
      · exact ih st1 st' hnd1 h p hp

/-- After a successful value loop on square `s`, every eliminated value is
out of the candidate set of `s`. -/
theorem loopVals_rem (f : Nat) (s : SquareId) :
    ∀ (ds : List Nat) (st : GState) (st' : GState),
      (st s).Nodup →
      loopVals (eliminate f) s st ds = some (true, st') → ∀ d ∈ ds, d ∉ st' s := by
  intro ds
  induction ds with
  | nil => intro st st' _ h d hd; cases hd
  | cons d0 ds ih =>
    intro st st' hnd h d hd
    rw [loopVals] at h
    split at h
    · cases h
    · cases h
    · rename_i st1 hd0
      have hsub1 : SubInv st st1 := eliminate_sub f st s d0 true st1 hd0
      have hnd1 : (st1 s).Nodup := hnd.sublist (hsub1 s)
      rcases List.mem_cons.mp hd with rfl | hd
      · have hrem : d ∉ st1 s := eliminate_rem f st s d hnd true st1 hd0
        intro hmem
        exact hrem ((loopVals_sub (eliminate_sub f) s ds st1 true st' h s).subset hmem)
      · exact ih st1 st' hnd1 h d hd

theorem wf_sub {st st' : GState} (h : WF st) (hsub : SubInv st st') : WF st' :=
  fun c => (h c).sublist (hsub c)

theorem prog_refl (st : GState) : Prog st st :=
  ⟨subInv_refl st, fun _ hne h1 => absurd h1 hne⟩

theorem prog_trans {st st' st'' : GState} (h1 : Prog st st') (h2 : Prog st' st'') :
    Prog st st'' := by
  refine ⟨subInv_trans h1.1 h2.1, ?_⟩
  intro c hne hc1 d hd p hp
  by_cases hmid : (st' c).length = 1
  · have hclean := h1.2 c hne hmid d ((h2.1 c).subset hd) p hp
    exact fun hmem => hclean ((h2.1 p).subset hmem)
  · exact h2.2 c hmid hc1 d hd p hp

theorem loopVals_prog {elim} (hE : ElimProg elim) (s : SquareId) :
    ∀ (ds : List Nat) (st : GState) (st' : GState),
      WF st → loopVals elim s st ds = some (true, st') → Prog st st' := by
  intro ds
  induction ds with
  | nil =>
    intro st st' _ h
    rw [loopVals] at h
    cases h
    exact prog_refl _
  | cons d ds ih =>
    intro st st' hwf h
    rw [loopVals] at h
    split at h
    · cases h
    · cases h
    · rename_i st1 hd
      have h1 : Prog st st1 := hE st s d st1 hwf hd
      exact prog_trans h1 (ih st1 st' (wf_sub hwf h1.1) h)

theorem assignW_prog {elim} (hE : ElimProg elim) : ElimProg (assignW elim) :=
  fun st s v st' hwf h => loopVals_prog hE s ((st s).erase v) st st' hwf h

theorem loopPeers_prog {elim} (hE : ElimProg elim) (d2 : Nat) :
    ∀ (ps : List SquareId) (st : GState) (st' : GState),
      WF st → loopPeers elim d2 st ps = some (true, st') → Prog st st' := by
  intro ps
  induction ps with
  | nil =>
    intro st st' _ h
    rw [loopPeers] at h
    cases h
    exact prog_refl _
  | cons p ps ih =>
    intro st st' hwf h
    rw [loopPeers] at h
    split at h
    · cases h
    · cases h
    · rename_i st1 hd
      have h1 : Prog st st1 := hE st p d2 st1 hwf hd
      exact prog_trans h1 (ih st1 st' (wf_sub hwf h1.1) h)

theorem loopUnits_prog {asg} (hA : ElimProg asg) (v : Nat) :
    ∀ (us : List (List SquareId)) (st : GState) (st' : GState),
      WF st → loopUnits asg v st us = some (true, st') → Prog st st' := by
  intro us
  induction us with
  | nil =>
    intro st st' _ h
    rw [loopUnits] at h
    cases h
    exact prog_refl _
  | cons u us ih =>
    intro st st' hwf h
    rw [loopUnits] at h
    split at h
    · cases h
    · rename_i p hfilter
      split at h
      · cases h
      · cases h
      · rename_i st1 hasg
        have h1 : Prog st st1 := hA st p v st1 hwf hasg
        exact prog_trans h1 (ih st1 st' (wf_sub hwf h1.1) h)
    · exact ih st st' hwf h

theorem updateSt_wf {st : GState} {s : SquareId} {vs : SquareVals}
    (hwf : WF st) (hvs : vs.Nodup) : WF (updateSt st s vs) := by
  intro c
  unfold updateSt
  by_cases hc : c = s
  · simpa [hc] using hvs
  · simpa [hc] using hwf c

theorem eliminate_prog : ∀ f, ElimProg (eliminate f) := by
  intro f
  induction f with
  | zero => intro st s v st' _ h; cases h
  | succ f ih =>
    intro st s v st' hwf h
    rw [eliminate] at h
    by_cases hv : v ∈ st s
    · rw [if_pos hv] at h
      rw [elimStep] at h
      split at h
      · cases h
      · rename_i d2 hl
        split at h
        · cases h
        · cases h
        · rename_i st2 hp
          have hsubupd : SubInv st (updateSt st s [d2]) :=
            updateSt_subInv (hl ▸ List.erase_sublist v (st s))
          have hwf1 : WF (updateSt st s [d2]) := updateSt_wf hwf (by simp)
          have hProgPeers : Prog (updateSt st s [d2]) st2 :=
            loopPeers_prog ih d2 (peers s) _ st2 hwf1 hp
          have hwf2 : WF st2 := wf_sub hwf1 hProgPeers.1
          have hProgUnits : Prog st2 st' :=
            loopUnits_prog (assignW_prog ih) v (units s) st2 st' hwf2 h
          have hPrem : ∀ p ∈ peers s, d2 ∉ st2 p :=
            loopPeers_rem f d2 (peers s) _ st2 hwf1 hp
          refine ⟨subInv_trans hsubupd (subInv_trans hProgPeers.1 hProgUnits.1), ?_⟩
          intro c hne hc1 d hd p hp'
          by_cases hcs : c = s
          · subst hcs
            have hdm : d ∈ (updateSt st c [d2]) c :=
              (hProgPeers.1 c).subset ((hProgUnits.1 c).subset hd)
            rw [updateSt_self] at hdm
            have hdd2 : d = d2 := by simpa using hdm
            subst hdd2
            exact fun hmem => hPrem p hp' ((hProgUnits.1 p).subset hmem)
          · have hmid : ((updateSt st s [d2]) c).length ≠ 1 := by
              rw [updateSt_ne st s [d2] hcs]
              exact hne
            exact (prog_trans hProgPeers hProgUnits).2 c hmid hc1 d hd p hp'
      · rename_i d1 d2 rest hl
        have hsubupd : SubInv st (updateSt st s (d1 :: d2 :: rest)) :=
          updateSt_subInv (hl ▸ List.erase_sublist v (st s))
        have hwf1 : WF (updateSt st s (d1 :: d2 :: rest)) := by
          refine updateSt_wf hwf ?_
          rw [hl.symm]
          exact (hwf s).erase v
        have hProgUnits : Prog (updateSt st s (d1 :: d2 :: rest)) st' :=
          loopUnits_prog (assignW_prog ih) v (units s) _ st' hwf1 h
        refine ⟨subInv_trans hsubupd hProgUnits.1, ?_⟩
        intro c hne hc1 d hd p hp'
        have hmid : ((updateSt st s (d1 :: d2 :: rest)) c).length ≠ 1 := by
          by_cases hcs : c = s
          · subst hcs; rw [updateSt_self]; simp
          · rw [updateSt_ne st s _ hcs]; exact hne
        exact hProgUnits.2 c hmid hc1 d hd p hp'
    · rw [if_neg hv] at h
      cases h
      exact prog_refl _

theorem assign_prog (f : Nat) : ElimProg (assign f) :=
  assignW_prog (eliminate_prog f)

theorem clean_of_prog {st st' : GState} (hcl : Clean st) (hprog : Prog st st') :
    Clean st' := by
  intro c d hc p hp
  by_cases h1 : (st c).length = 1
  · obtain ⟨e, he⟩ := List.length_eq_one.mp h1
    have hde : d = e := by
      have : d ∈ st c := (hprog.1 c).subset (by simp [hc])
      simpa [he] using this
    subst hde
    exact fun hmem => hcl c d he p hp ((hprog.1 p).subset hmem)
  · exact hprog.2 c h1 (by simp [hc]) d (by simp [hc]) p hp

theorem loopTry_sub {asg srch} (hA : StepSub asg)
    (hS : ∀ st b st', srch st = some (b, st') → SubInv st st')
    (st : GState) (s : SquareId) :
    ∀ (ds : List Nat) (b : Bool) (st' : GState),
      loopTry asg srch st s ds = some (b, st') → SubInv st st' := by
  intro ds
  induction ds with
  | nil =>
    intro b st' h
    rw [loopTry] at h
    cases h
    exact subInv_refl _
  | cons d ds ih =>
    intro b st' h
    rw [loopTry] at h
    split at h
    · cases h
    · exact ih b st' h
    · rename_i st1 hasg
      split at h
      · cases h
      · rename_i st2 hsr
        cases h
        exact subInv_trans (hA st s d true st1 hasg) (hS st1 true st' hsr)
      · exact ih b st' h

theorem search_sub : ∀ (f : Nat) (st : GState) (b : Bool) (st' : GState),
    search f st = some (b, st') → SubInv st st' := by
  intro f
  induction f with
  | zero => intro st b st' h; cases h
  | succ f ih =>
    intro st b st' h
    rw [search] at h
    split at h
    · cases h
      exact subInv_refl _
    · split at h
      · cases h
      · rename_i s hcs
        exact loopTry_sub (assign_sub f) ih st s (sort_values st s) b st' h

theorem is_solved_iff {st : GState} :
    is_solved st = true ↔ ∀ c ∈ squares, (st c).length = 1 := by
  simp [is_solved, List.all_eq_true]

theorem loopTry_ok {asg srch} (hA : ElimProg asg)
    (hS : ∀ st st', WF st → Clean st → srch st = some (true, st') →
      is_solved st' = true ∧ Clean st')
    (st : GState) (s : SquareId) (hwf : WF st) (hcl : Clean st) :
    ∀ (ds : List Nat) (st' : GState),
      loopTry asg srch st s ds = some (true, st') →
      is_solved st' = true ∧ Clean st' := by
  intro ds
  induction ds with
  | nil =>
    intro st' h
    rw [loopTry] at h
    cases h
  | cons d ds ih =>
    intro st' h
    rw [loopTry] at h
    split at h
    · cases h
    · exact ih st' h
    · rename_i st1 hasg
      split at h
      · cases h
      · rename_i st2 hsr
        cases h
        have hprog : Prog st st1 := hA st s d st1 hwf hasg
        exact hS st1 st' (wf_sub hwf hprog.1) (clean_of_prog hcl hprog) hsr
      · exact ih st' h

/-- Partial correctness of `State::search` on well-formed clean states:
success yields a fully singleton, still clean state. -/
theorem search_ok : ∀ (f : Nat) (st st' : GState), WF st → Clean st →
    search f st = some (true, st') → is_solved st' = true ∧ Clean st' := by
  intro f
  induction f with
  | zero => intro st st' _ _ h; cases h
  | succ f ih =>
    intro st st' hwf hcl h
    rw [search] at h
    split at h
    · rename_i hsolved
      cases h
      exact ⟨by simpa using hsolved, hcl⟩
    · split at h
      · cases h
      · rename_i s hcs
        exact loopTry_ok (assign_prog f) ih st s hwf hcl (sort_values st s) st' h

theorem apply_sub : ∀ (ss : StartState) (f : Nat) (st : GState) (b : Bool) (st' : GState),
    apply_start_state f st ss = some (b, st') → SubInv st st' := by
  intro ss
  induction ss with
  | nil =>
    intro f st b st' h
    rw [apply_start_state] at h
    cases h
    exact subInv_refl _
  | cons sv rest ih =>
    intro f st b st' h
    obtain ⟨s, v⟩ := sv
    rw [apply_start_state] at h
    split at h
    · split at h
      · cases h
      · rename_i st1 hasg
        cases h
        exact assign_sub f st s v false _ hasg
      · rename_i st1 hasg
        exact subInv_trans (assign_sub f st s v true st1 hasg) (ih f st1 b st' h)
    · exact ih f st b st' h

theorem apply_ok : ∀ (ss : StartState) (f : Nat) (st st' : GState), WF st → Clean st →
    apply_start_state f st ss = some (true, st') → WF st' ∧ Clean st' := by
  intro ss
  induction ss with
  | nil =>
    intro f st st' hwf hcl h
    rw [apply_start_state] at h
    cases h
    exact ⟨hwf, hcl⟩
  | cons sv rest ih =>
    intro f st st' hwf hcl h
    obtain ⟨s, v⟩ := sv
    rw [apply_start_state] at h
    split at h
    · split at h
      · cases h
      · cases h
      · rename_i st1 hasg
        have hprog : Prog st st1 := assign_prog f st s v st1 hwf hasg
        exact ih f st1 st' (wf_sub hwf hprog.1) (clean_of_prog hcl hprog) h
    · exact ih f st st' hwf hcl h

theorem wf_initial : WF initial := fun _ => by
  show List.Nodup digits
  decide

theorem clean_initial : Clean initial := by
  intro c d h p hp
  have hlen := congrArg List.length h
  simp [initial, digits] at hlen

theorem unit_mem_squares : ∀ u ∈ unitlist, ∀ c ∈ u, c ∈ squares := by decide

theorem unit_length : ∀ u ∈ unitlist, u.length = 9 := by decide

theorem unit_nodup : ∀ u ∈ unitlist, u.Nodup := by decide

/-- Two distinct cells of one unit are peers of each other. -/
theorem mem_peers_of_unit {u : List SquareId} (hu : u ∈ unitlist) {c1 c2 : SquareId}
    (h1 : c1 ∈ u) (h2 : c2 ∈ u) (hne : c2 ≠ c1) : c2 ∈ peers c1 := by
  unfold peers
  rw [List.mem_dedup, List.mem_filter]
  refine ⟨?_, by simp [hne]⟩
  rw [List.mem_flatten]
  refine ⟨u, ?_, h2⟩
  unfold units
  rw [List.mem_filter]
  exact ⟨hu, by simp [h1]⟩

/-- In a clean, fully singleton state, the digits of every unit are a
permutation of `{1..9}`. -/
theorem unit_perm {st : GState} (hsub : SubInv initial st) (hcl : Clean st)
    (hall : ∀ c ∈ squares, (st c).length = 1) {u : List SquareId} (hu : u ∈ unitlist) :
    (u.map (fun c => (st c).headD 0)).Perm digits := by
  have hsingle : ∀ c ∈ u, st c = [(st c).headD 0] := by
    intro c hc
    obtain ⟨e, he⟩ := List.length_eq_one.mp (hall c (unit_mem_squares u hu c hc))
    rw [he]
    simp
  have hmemdig : ∀ c ∈ u, (st c).headD 0 ∈ digits := by
    intro c hc
    obtain ⟨e, he⟩ := List.length_eq_one.mp (hall c (unit_mem_squares u hu c hc))
    have he' : e ∈ st c := by rw [he]; simp
    have hed : e ∈ digits := (hsub c).subset he'
    rw [he]
    simpa using hed
  have hnd : (u.map fun c => (st c).headD 0).Nodup := by
    refine List.Nodup.map_on ?_ (unit_nodup u hu)
    intro x hx y hy hxy
    by_contra hne
    have hpy : y ∈ peers x := mem_peers_of_unit hu hx hy (fun h => hne h.symm)
    refine hcl x _ (hsingle x hx) y hpy ?_
    rw [hsingle y hy, hxy]
    simp
  have hndd : digits.Nodup := by decide
  refine List.perm_of_nodup_nodup_toFinset_eq hnd hndd ?_
  have hsubf : (u.map fun c => (st c).headD 0).toFinset ⊆ digits.toFinset := by
    intro a ha
    rw [List.mem_toFinset] at ha
    rw [List.mem_toFinset]
    obtain ⟨c, hc, rfl⟩ := List.mem_map.mp ha
    exact hmemdig c hc
  refine Finset.eq_of_subset_of_card_le hsubf ?_
  have h1 : (u.map fun c => (st c).headD 0).toFinset.card = 9 := by
    rw [List.toFinset_card_of_nodup hnd, List.length_map, unit_length u hu]
  have h2 : digits.toFinset.card = 9 := by decide
  rw [h1, h2]

/-- Claim C1: whenever `State::solve` reports success, every one of the 81
cells of the resulting grid state has a singleton candidate set, and for
every one of the 27 units the nine singleton digits of its cells are
exactly the set `{1..9}` (each digit appears exactly once per row, column,
and box). -/
theorem claim_C1 : ∀ (f : Nat) (ss : StartState),
    (solve f ss).map Prod.fst = some true →
    solved_and_valid (result_state (solve f ss)) := by
  intro f ss h
  cases hs : solve f ss with
  | none => rw [hs] at h; cases h
  | some p =>
    obtain ⟨b, st'⟩ := p
    rw [hs] at h
    simp at h
    subst h
    show solved_and_valid st'
    rw [solve] at hs
    split at hs
    · cases hs
    · cases hs
    · rename_i st0 happ
      have h0 := apply_ok ss f initial st0 wf_initial clean_initial happ
      have hsub0 : SubInv initial st0 := apply_sub ss f initial true st0 happ
      have hok := search_ok f st0 st' h0.1 h0.2 hs
      have hsub1 : SubInv st0 st' := search_sub f st0 true st' hs
      have hsub : SubInv initial st' := subInv_trans hsub0 hsub1
      have hall : ∀ c ∈ squares, (st' c).length = 1 := is_solved_iff.mp hok.1
      exact ⟨hok.1, hall, fun u hu => unit_perm hsub hok.2 hall hu⟩

/-- Witness for C1: solving a concrete complete grid succeeds, so the
main theorem applies to it. -/
theorem claim_C1_witness : solved_and_valid (result_state (solve 12 exClues)) :=
  claim_C1 12 exClues (by rfl)

/-- Claim C5: candidate sets shrink monotonically — for every call to
`assign`, `eliminate`, or `search`, whether it returns success or failure,
each cell's candidate set after the call is a subset of that cell's
candidate set before the call. -/
theorem claim_C5 :
    (∀ (f : Nat) (st : GState) (s : SquareId) (v : Nat) (b : Bool) (st' : GState),
      eliminate f st s v = some (b, st') → ∀ c, st' c ⊆ st c) ∧
    (∀ (f : Nat) (st : GState) (s : SquareId) (v : Nat) (b : Bool) (st' : GState),
      assign f st s v = some (b, st') → ∀ c, st' c ⊆ st c) ∧
    (∀ (f : Nat) (st : GState) (b : Bool) (st' : GState),
      search f st = some (b, st') → ∀ c, st' c ⊆ st c) :=
  ⟨fun f st s v b st' h c => ((eliminate_sub f st s v b st' h) c).subset,
   fun f st s v b st' h c => ((assign_sub f st s v b st' h) c).subset,
   fun f st b st' h c => ((search_sub f st b st' h) c).subset⟩

/-- Witness for C5: a concrete `eliminate` call, evaluated, shrinks the
candidate set of the affected square. -/
theorem claim_C5_witness :
    (updateSt initial ('A', '1') [1, 2, 3, 4, 6, 7, 8, 9]) ('A', '1') ⊆ initial ('A', '1') :=
  claim_C5.1 1 initial ('A', '1') 5 true
    (updateSt initial ('A', '1') [1, 2, 3, 4, 6, 7, 8, 9]) (by rfl) ('A', '1')

/-- Claim C8: eliminating a value that is not a candidate of the square is
an immediate no-op success leaving the whole grid state unchanged — it
needs no propagation fuel at all. -/
theorem claim_C8 : ∀ (f : Nat) (st : GState) (s : SquareId) (v : Nat),
    v ∉ st s → eliminate (f + 1) st s v = some (true, st) := by
  intro f st s v hv
  rw [eliminate, if_neg hv]

/-- Witness for C8: eliminating the non-candidate digit 0 from a square of
the initial state succeeds immediately and returns the state unchanged. -/
theorem claim_C8_witness : eliminate 1 initial ('A', '1') 0 = some (true, initial) :=
  claim_C8 0 initial ('A', '1') 0 (by decide)

/-- Claim C2: when `v` is currently a candidate of the square, `eliminate`
removes it and then (i) fails if the candidate set became empty; (ii) if it
became a singleton `d2`, eliminates `d2` from every peer, failing if any
peer elimination fails, and otherwise continues with the unit loop; (iii)
for each unit of the square the unit loop fails if no cell still holds the
value, recursively assigns the value when exactly one cell does
(propagating that call's failure), and skips units with two or more
places; an exhausted unit loop is a success.  The square has 20 peers and
lies in 3 units. -/
theorem claim_C2 : ∀ (f : Nat) (st : GState) (s : SquareId) (v : Nat), v ∈ st s →
    ((st s).erase v = [] → eliminate (f + 1) st s v = some (false, updateSt st s [])) ∧
    (∀ d2, (st s).erase v = [d2] →
      (loopPeers (eliminate f) d2 (updateSt st s [d2]) (peers s) = none →
        eliminate (f + 1) st s v = none) ∧
      (∀ st2, loopPeers (eliminate f) d2 (updateSt st s [d2]) (peers s) = some (false, st2) →
        eliminate (f + 1) st s v = some (false, st2)) ∧
      (∀ st2, loopPeers (eliminate f) d2 (updateSt st s [d2]) (peers s) = some (true, st2) →
        eliminate (f + 1) st s v = loopUnits (assign f) v st2 (units s))) ∧
    (∀ d1 d2 rest, (st s).erase v = d1 :: d2 :: rest →
      eliminate (f + 1) st s v =
        loopUnits (assign f) v (updateSt st s (d1 :: d2 :: rest)) (units s)) ∧
    (∀ (st0 : GState) (u : List SquareId) (us : List (List SquareId)),
      (loopUnits (assign f) v st0 [] = some (true, st0)) ∧
      (u.filter (fun c => decide (v ∈ st0 c)) = [] →
        loopUnits (assign f) v st0 (u :: us) = some (false, st0)) ∧
      (∀ p, u.filter (fun c => decide (v ∈ st0 c)) = [p] →
        (assign f st0 p v = none → loopUnits (assign f) v st0 (u :: us) = none) ∧
        (∀ st1, assign f st0 p v = some (false, st1) →
          loopUnits (assign f) v st0 (u :: us) = some (false, st1)) ∧
        (∀ st1, assign f st0 p v = some (true, st1) →
          loopUnits (assign f) v st0 (u :: us) = loopUnits (assign f) v st1 us)) ∧
      (∀ p q qs, u.filter (fun c => decide (v ∈ st0 c)) = p :: q :: qs →
        loopUnits (assign f) v st0 (u :: us) = loopUnits (assign f) v st0 us)) ∧
    (s ∈ squares → (peers s).length = 20 ∧ (units s).length = 3) := by
  intro f st s v hv
  have hcard : ∀ s ∈ squares, (peers s).length = 20 ∧ (units s).length = 3 := by decide
  refine ⟨?_, ?_, ?_, ?_, fun hs => hcard s hs⟩
  · intro hl
    rw [eliminate, if_pos hv, elimStep, hl]
  · intro d2 hl
    have hkey : eliminate (f + 1) st s v =
        match loopPeers (eliminate f) d2 (updateSt st s [d2]) (peers s) with
        | none => none
        | some (false, st2) => some (false, st2)
        | some (true, st2) => loopUnits (assign f) v st2 (units s) := by
      rw [eliminate, if_pos hv, elimStep, hl]
      rfl
    refine ⟨?_, ?_, ?_⟩
    · intro hp
      rw [hkey, hp]
    · intro st2 hp
      rw [hkey, hp]
    · intro st2 hp
      rw [hkey, hp]
  · intro d1 d2 rest hl
    rw [eliminate, if_pos hv, elimStep, hl]
    rfl
  · intro st0 u us
    refine ⟨by rw [loopUnits], ?_, ?_, ?_⟩
    · intro hfil
      rw [loopUnits, hfil]
    · intro p hfil
      have hkey : loopUnits (assign f) v st0 (u :: us) =
          match assign f st0 p v with
          | none => none
          | some (false, st1) => some (false, st1)
          | some (true, st1) => loopUnits (assign f) v st1 us := by
        rw [loopUnits, hfil]
      refine ⟨?_, ?_, ?_⟩
      · intro ha
        rw [hkey, ha]
      · intro st1 ha
        rw [hkey, ha]
      · intro st1 ha
        rw [hkey, ha]
    · intro p q qs hfil
      rw [loopUnits, hfil]

/-- Witness for C2: the multi-candidate branch of a concrete `eliminate`
call reduces to the unit loop on the updated state. -/
theorem claim_C2_witness :
    eliminate 1 initial ('A', '1') 5 =
      loopUnits (assign 0) 5 (updateSt initial ('A', '1') [1, 2, 3, 4, 6, 7, 8, 9])
        (units ('A', '1')) :=
  ((claim_C2 0 initial ('A', '1') 5 (by decide)).2.2.1) 1 2 [3, 4, 6, 7, 8, 9] (by decide)

theorem pickMin_eq_none {st : GState} : ∀ {l : List SquareId}, pickMin st l = none → l = [] := by
  intro l h
  cases l with
  | nil => rfl
  | cons s ss =>
    rw [pickMin] at h
    split at h
    · cases h
    · split at h <;> cases h

/-- `pickMin` returns the first element of minimal candidate-set size:
everything before it is strictly larger, everything after it at least as
large. -/
theorem pickMin_spec {st : GState} : ∀ (l : List SquareId) (sq : SquareId),
    pickMin st l = some sq →
    ∃ pre suf, l = pre ++ sq :: suf ∧
      (∀ c ∈ pre, (st sq).length < (st c).length) ∧
      (∀ c ∈ suf, (st sq).length ≤ (st c).length) := by
  intro l
  induction l with
  | nil => intro sq h; cases h
  | cons s ss ih =>
    intro sq h
    rw [pickMin] at h
    split at h
    · rename_i hnone
      cases h
      have hss : ss = [] := pickMin_eq_none hnone
      subst hss
      exact ⟨[], [], rfl, by simp, by simp⟩
    · rename_i b hsome
      obtain ⟨pre, suf, heq, hpre, hsuf⟩ := ih b hsome
      split at h
      · rename_i hle
        cases h
        refine ⟨[], ss, rfl, by simp, ?_⟩
        intro c hc
        rw [heq] at hc
        rcases List.mem_append.mp hc with hc | hc
        · exact le_trans hle (le_of_lt (hpre c hc))
        · rcases List.mem_cons.mp hc with rfl | hc
          · exact hle
          · exact le_trans hle (hsuf c hc)
      · rename_i hnle
        cases h
        have hlt : (st sq).length < (st s).length := Nat.lt_of_not_le hnle
        refine ⟨s :: pre, suf, by rw [heq]; rfl, ?_, hsuf⟩
        intro c hc
        rcases List.mem_cons.mp hc with rfl | hc
        · exact hlt
        · exact hpre c hc

/-- Claim C3: a successfully chosen branching cell is an unsolved cell of
minimal candidate-set size, is the first such cell in the fixed row-major
cell order among ties, and is the cell on which the search branches when
the state is not solved. -/
theorem claim_C3 : ∀ (st : GState) (sq : SquareId), choose_square st = some sq →
    sq ∈ squares ∧ 1 < (st sq).length ∧
    (∀ c ∈ squares, 1 < (st c).length → (st sq).length ≤ (st c).length) ∧
    (∃ pre suf, squares.filter (fun c => decide (1 < (st c).length)) = pre ++ sq :: suf ∧
      ∀ c ∈ pre, (st sq).length < (st c).length) ∧
    (∀ f, is_solved st = false →
      search (f + 1) st = loopTry (assign f) (search f) st sq (sort_values st sq)) := by
  intro st sq h
  have h0 := h
  unfold choose_square at h
  obtain ⟨pre, suf, heq, hpre, hsuf⟩ := pickMin_spec _ sq h
  have hsqmem : sq ∈ squares.filter (fun c => decide (1 < (st c).length)) := by
    rw [heq]
    simp
  have hsq := List.mem_filter.mp hsqmem
  refine ⟨hsq.1, by simpa using hsq.2, ?_, ⟨pre, suf, heq, hpre⟩, ?_⟩
  · intro c hc hlen
    have hcf : c ∈ squares.filter (fun c => decide (1 < (st c).length)) :=
      List.mem_filter.mpr ⟨hc, by simpa using hlen⟩
    rw [heq] at hcf
    rcases List.mem_append.mp hcf with hc' | hc'
    · exact le_of_lt (hpre c hc')
    · rcases List.mem_cons.mp hc' with rfl | hc'
      · exact le_refl _
      · exact hsuf c hc'
  · intro f hsolved
    rw [search, if_neg (by simp [hsolved]), h0]

/-- Witness for C3: on the initial state the chosen cell is computed and
the theorem applies to it. -/
theorem claim_C3_witness : 1 < (initial ('A', '1')).length :=
  (claim_C3 initial ('A', '1') (by rfl)).2.1

theorem pairwise_imp_of_mem {α : Type} {R S : α → α → Prop} :
    ∀ {l : List α}, (∀ a ∈ l, ∀ b ∈ l, R a b → S a b) → l.Pairwise R → l.Pairwise S := by
  intro l
  induction l with
  | nil => intro _ _; exact List.Pairwise.nil
  | cons x xs ih =>
    intro himp hp
    rcases List.pairwise_cons.mp hp with ⟨hx, hxs⟩
    refine List.pairwise_cons.mpr ⟨?_, ih ?_ hxs⟩
    · intro b hb
      exact himp x (by simp) b (by simp [hb]) (hx b hb)
    · intro a ha b hb hr
      exact himp a (by simp [ha]) b (by simp [hb]) hr

/-- Claim C4: the candidate digits tried at a branching cell are exactly
the cell's candidates, ordered by ascending global popularity (the number
of cells of the whole state whose candidate set contains the digit), so a
digit of strictly smaller popularity is always tried before one of
strictly larger popularity. -/
theorem claim_C4 : ∀ (st : GState) (s : SquareId),
    (sort_values st s).Perm (st s) ∧
    (sort_values st s).Pairwise (fun a b => popCount st a ≤ popCount st b) := by
  intro st s
  constructor
  · unfold sort_values
    have h1 := (List.perm_insertionSort (fun a b : Nat × Nat => a.2 ≤ b.2)
      ((st s).map (fun v => (v, popCount st v)))).map Prod.fst
    have h2 : ((st s).map (fun v => (v, popCount st v))).map Prod.fst = st s := by
      rw [List.map_map]
      exact List.map_id (st s)
    rw [h2] at h1
    exact h1
  · haveI : IsTotal (Nat × Nat) (fun a b => a.2 ≤ b.2) := ⟨fun a b => Nat.le_total a.2 b.2⟩
    haveI : IsTrans (Nat × Nat) (fun a b => a.2 ≤ b.2) := ⟨fun _ _ _ h1 h2 => Nat.le_trans h1 h2⟩
    have hsorted := List.sorted_insertionSort (fun a b : Nat × Nat => a.2 ≤ b.2)
      ((st s).map (fun v => (v, popCount st v)))
    unfold sort_values
    rw [List.pairwise_map]
    refine pairwise_imp_of_mem ?_ hsorted
    intro a ha b hb hr
    have hma : a ∈ (st s).map (fun v => (v, popCount st v)) :=
      (List.mem_insertionSort _).mp ha
    have hmb : b ∈ (st s).map (fun v => (v, popCount st v)) :=
      (List.mem_insertionSort _).mp hb
    obtain ⟨va, _, rfl⟩ := List.mem_map.mp hma
    obtain ⟨vb, _, rfl⟩ := List.mem_map.mp hmb
    exact hr

/-- Claim C7: `parse` errors exactly on inputs whose length is not 81; on a
length-80 input `solve_str` returns that parse error for every fuel, i.e.
before any propagation runs; and on a length-81 input `parse` succeeds,
pairing the squares in row-major order with the input characters. -/
theorem claim_C7 : ∀ grid : List Char,
    (parse grid = Except.error errLen ↔ grid.length ≠ 81) ∧
    (∀ f, grid.length = 80 → solve_str f grid = some (Except.error errLen)) ∧
    (grid.length = 81 → parse grid = Except.ok (squares.zip (grid.map charClue))) := by
  intro grid
  refine ⟨⟨?_, ?_⟩, ?_, ?_⟩
  · intro h hlen
    rw [parse, if_neg (by simpa using hlen)] at h
    cases h
  · intro h
    rw [parse, if_pos h]
  · intro f h
    have hne : grid.length ≠ 81 := by rw [h]; decide
    rw [solve_str, parse, if_pos hne]
  · intro h
    rw [parse, if_neg (by simp [h])]

/-- Witness for C7: a concrete 80-character input makes `solve_str` return
the parse error with zero propagation fuel. -/
theorem claim_C7_witness : solve_str 0 grid80 = some (Except.error errLen) :=
  (claim_C7 grid80).2.1 0 (by rfl)

/-- `assign` of a non-candidate value on a nonempty duplicate-free
candidate set can never succeed. -/
theorem assign_fail : ∀ (f : Nat) (st : GState) (s : SquareId) (v : Nat) (st' : GState),
    (st s).Nodup → v ∉ st s → st s ≠ [] → assign f st s v = some (true, st') → False := by
  intro f st s v st' hnd hv hne h
  have herase : (st s).erase v = st s := List.erase_of_not_mem hv
  have hrem : ∀ d ∈ (st s).erase v, d ∉ st' s := loopVals_rem f s ((st s).erase v) st st' hnd h
  have hsubs : st' s ⊆ st s := ((assign_sub f) st s v true st' h s).subset
  have hnempty : st' s ≠ [] := assign_ne f st s v st' h s hne
  cases hx : st' s with
  | nil => exact hnempty hx
  | cons x xs =>
    have hxin : x ∈ st' s := by rw [hx]; simp
    exact hrem x (by rw [herase]; exact hsubs hxin) hxin

/-- Claim C10: if the requested value is not in the square's nonempty
candidate set, `assign` never succeeds — in particular assigning any digit
to a cell already solved to a different digit fails. -/
theorem claim_C10 : ∀ (f : Nat) (st : GState) (s : SquareId) (v : Nat),
    (st s).Nodup → v ∉ st s → st s ≠ [] →
    (assign f st s v).map Prod.fst ≠ some true := by
  intro f st s v hnd hv hne h
  cases ha : assign f st s v with
  | none => rw [ha] at h; cases h
  | some p =>
    obtain ⟨b, st'⟩ := p
    rw [ha] at h
    simp at h
    subst h
    exact assign_fail f st s v st' hnd hv hne ha

/-- Witness for C10: assigning 3 to a cell already solved to 5 fails. -/
theorem claim_C10_witness : (assign 9 solvedCellSt ('A', '1') 3).map Prod.fst ≠ some true :=
  claim_C10 9 solvedCellSt ('A', '1') 3 (by decide) (by decide) (by decide)

theorem eq_singleton_of_all_eq {l : List Nat} {v : Nat} (hne : l ≠ []) (hall : ∀ x ∈ l, x = v)
    (hnd : l.Nodup) : l = [v] := by
  cases l with
  | nil => exact absurd rfl hne
  | cons x xs =>
    have hx : x = v := hall x (by simp)
    subst hx
    cases xs with
    | nil => rfl
    | cons y ys =>
      rcases List.pairwise_cons.mp hnd with ⟨hnx, _⟩
      exact absurd (hall y (by simp)) (Ne.symm (hnx y (by simp)))

/-- A successful `assign` of a candidate value pins the square to exactly
that value. -/
theorem assign_singleton (f : Nat) (st : GState) (s : SquareId) (v : Nat) (st' : GState)
    (hnd : (st s).Nodup) (hv : v ∈ st s) (h : assign f st s v = some (true, st')) :
    st' s = [v] := by
  have hrem : ∀ d ∈ (st s).erase v, d ∉ st' s := loopVals_rem f s ((st s).erase v) st st' hnd h
  have hsubs : st' s ⊆ st s := ((assign_sub f) st s v true st' h s).subset
  have hnempty : st' s ≠ [] :=
    assign_ne f st s v st' h s (by intro hh; rw [hh] at hv; cases hv)
  have hndp : (st' s).Nodup := hnd.sublist ((assign_sub f) st s v true st' h s)
  refine eq_singleton_of_all_eq hnempty ?_ hndp
  intro x hx
  by_contra hxv
  exact hrem x ((List.mem_erase_of_ne hxv).mpr (hsubs hx)) hx

/-- Claim C9: `assign` is idempotent — after a successful
`assign(square, value)`, immediately re-assigning the same pair succeeds
(with any fuel) and leaves every cell's candidate set unchanged. -/
theorem claim_C9 : ∀ (f f' : Nat) (st : GState) (s : SquareId) (v : Nat) (st' : GState),
    (st s).Nodup → assign f st s v = some (true, st') →
    assign f' st' s v = some (true, st') := by
  intro f f' st s v st' hnd h
  have hkey : (st' s).erase v = [] := by
    by_cases hv : v ∈ st s
    · rw [assign_singleton f st s v st' hnd hv h]
      simp
    · by_cases hne : st s = []
      · have heq : assign f st s v = some (true, st) := by
          show loopVals (eliminate f) s st ((st s).erase v) = some (true, st)
          rw [hne]
          rfl
        rw [heq] at h
        obtain rfl : st = st' := by simpa using h
        rw [hne]
        rfl
      · exact (assign_fail f st s v st' hnd hv hne h).elim
  show loopVals (eliminate f') s st' ((st' s).erase v) = some (true, st')
  rw [hkey]
  rfl

/-- Witness for C9: a concrete successful `assign` on the initial state,
re-assigned with zero fuel, succeeds unchanged. -/
theorem claim_C9_witness :
    assign 0 (result_state (assign 12 initial ('A', '1') 5)) ('A', '1') 5 =
      some (true, result_state (assign 12 initial ('A', '1') 5)) :=
  claim_C9 12 0 initial ('A', '1') 5 (result_state (assign 12 initial ('A', '1') 5))
    (by decide) (by rfl)

/-- Whenever `State::randomize` succeeds, the final state's singleton cells
hold at least `n` digits of which at least 8 are distinct — the success
condition checked after each random assignment. -/
theorem randomize_spec (f : Nat) (n : Nat) : ∀ (order : List SquareId) (st : GState)
    (picks : List Nat) (st'' : GState),
    randomize f st order picks n = some st'' →
    n ≤ ((encode st'').map Prod.snd).length ∧
      8 ≤ ((encode st'').map Prod.snd).dedup.length := by
  intro order
  induction order with
  | nil => intro st picks st'' h; cases h
  | cons s rest ih =>
    intro st picks st'' h
    rw [randomize] at h
    split at h
    · cases h
    · cases h
    · rename_i st1 hasg
      split at h
      · rename_i hcond
        cases h
        exact hcond
      · exact ih st1 picks.tail st'' h

/-- The encoded start state of a grid state is exactly its singleton
cells, paired with their digits. -/
theorem encode_mem {st : GState} {c : SquareId} {v : Nat} :
    (c, v) ∈ encode st ↔ c ∈ squares ∧ st c = [v] := by
  unfold encode
  rw [List.mem_map]
  constructor
  · rintro ⟨a, ha, heq⟩
    have hf := List.mem_filter.mp ha
    obtain ⟨e, he⟩ := List.length_eq_one.mp (by simpa using hf.2)
    cases heq
    refine ⟨hf.1, ?_⟩
    rw [he]
    rfl
  · rintro ⟨hc, hv⟩
    refine ⟨c, List.mem_filter.mpr ⟨hc, by simp [hv]⟩, ?_⟩
    rw [hv]
    rfl

/-- Claim C6: whenever a `randomize` run (hence `Generator::generate`)
returns, the returned start state is the encoding of exactly the singleton
cells of the final internal grid state, holds at least `n` clue pairs, and
its clues contain at least 8 distinct digits. -/
theorem claim_C6 : ∀ (f n : Nat) (order : List SquareId) (picks : List Nat),
    (randomize f initial order picks n).isSome = true →
    n ≤ (encode (rand_state f order picks n)).length ∧
    8 ≤ ((encode (rand_state f order picks n)).map Prod.snd).dedup.length ∧
    state_generate f n order picks = some (encode (rand_state f order picks n)) ∧
    (∀ c v, (c, v) ∈ encode (rand_state f order picks n) ↔
      c ∈ squares ∧ rand_state f order picks n c = [v]) := by
  intro f n order picks h
  cases hr : randomize f initial order picks n with
  | none => rw [hr] at h; cases h
  | some st'' =>
    have hrs : rand_state f order picks n = st'' := by rw [rand_state, hr]; rfl
    rw [hrs]
    have hspec := randomize_spec f n order initial picks st'' hr
    refine ⟨?_, hspec.2, ?_, fun c v => encode_mem⟩
    · have h1 := hspec.1
      rwa [List.length_map] at h1
    · rw [state_generate, hr]
      rfl

/-- Witness for C6: a concrete successful randomization run yields at
least 8 distinct clue digits. -/
theorem claim_C6_witness :
    8 ≤ ((encode (rand_state 12 worder wpicks 1)).map Prod.snd).dedup.length :=
  (claim_C6 12 1 worder wpicks (by rfl)).2.1

end Sudoku
